import Mathlib

/-!
# Verification of the bingoviewer document projection and lookup core

A shallow embedding of the core of `main.go`: the document projector
(`getData`), the record locator (`lookup`), the notification log
(`Model.Info` / `Model.Error` / `Model.Success`, watermark `lastMsg`)
and the database-open dialog (`loadDatabaseDialog`), together with
theorems about them.

External collaborators (the bingo store, the file dialog, the Go
standard library's `fmt` and `unicode` facilities) are modelled from
their documented contracts; their results enter the embedded functions
as explicit parameters.
-/

namespace BingoViewer

/-- A document field value: the tagged variant over
null / boolean / number / string / list / map that a schema-less JSON
document field can hold (`map[string]any` after decoding).  Numbers are
modelled as integers; no claim depends on numeric formatting. -/
inductive Value where
  | null : Value
  | bool (b : Bool) : Value
  | num (n : Int) : Value
  | str (s : String) : Value
  | list (vs : List Value) : Value
  | map (kvs : List (String × Value)) : Value

/-- A document (`kmap = map[string]any` in main.go): an association list
from field name to value.  Keys are unique as in a Go map; association
lists are kept in Go's canonical (sorted) key order, so rendering order
matches `fmt`'s sorted map rendering. -/
abbrev Document := List (String × Value)

/-- `m.columns`: the ordered columns, each an ordered alias group
(`[][]string`). -/
abbrev Columns := List (List String)

/-- Go map indexing `val, ok := doc[colname]` on a document. -/
def lookupDoc : Document → String → Option Value
  | [], _ => none
  | (k, v) :: rest, key => if k = key then some v else lookupDoc rest key

mutual

/-- `fmt.Sprintf("%v", val)`, modelled from fmt's documented default
formats: strings print verbatim, booleans as `true`/`false`, untyped nil
as `<nil>`, slices as space-separated values in brackets, maps as
`map[k:v ...]` with keys in sorted order (the association list is kept
sorted, see `Document`). -/
def render : Value → String
  | .null => "<nil>"
  | .bool b => if b then "true" else "false"
  | .num n => toString n
  | .str s => s
  | .list vs => "[" ++ renderItems vs ++ "]"
  | .map kvs => "map[" ++ renderPairs kvs ++ "]"

/-- Space-separated rendering of slice elements. -/
def renderItems : List Value → String
  | [] => ""
  | [v] => render v
  | v :: rest => render v ++ " " ++ renderItems rest

/-- Space-separated `key:value` rendering of map entries. -/
def renderPairs : List (String × Value) → String
  | [] => ""
  | [(k, v)] => k ++ ":" ++ render v
  | (k, v) :: rest => k ++ ":" ++ render v ++ " " ++ renderPairs rest

end

/-- Go `unicode.IsPrint`, modelled from its documented contract
(letters, marks, numbers, punctuation, symbols and the ASCII space are
printable).  The Latin-1 range is exact (printable ASCII `0x20..0x7E`
and `0xA1..0xFF` except the soft hyphen `0xAD`).  Runes above `U+00FF`
are classified as printable here; no input in this development contains
such runes and no theorem depends on their classification. -/
def unicode_IsPrint (c : Char) : Bool :=
  let n := c.toNat
  if n < 0x100 then
    (0x20 ≤ n && n ≤ 0x7E) || (0xA1 ≤ n && n ≤ 0xFF && n ≠ 0xAD)
  else
    true

/-- Go `strings.Map` where the mapping function may drop a rune (Go's
convention of returning a negative rune is modelled as `none`). -/
def strings_Map (f : Char → Option Char) (s : String) : String :=
  ⟨s.data.filterMap f⟩

/-- The display sanitization at main.go:435-440: keep a rune iff
`unicode.IsPrint` holds for it, drop it otherwise. -/
def sanitizeCell (s : String) : String :=
  strings_Map (fun r => if unicode_IsPrint r then some r else none) s

/-- The inner alias scan of getData's row builder (main.go:433-446):
walk the alias group in order and stop at the first alias present as a
key of the document. -/
def firstAlias (doc : Document) : List String → Option Value
  | [] => none
  | c :: cs =>
    match lookupDoc doc c with
    | some v => some v
    | none => firstAlias doc cs

/-- The display cell a document produces for one column: the sanitized
rendering of the first present alias's value, or the placeholder
`"(None)"` (main.go:434-449). -/
def displayCell (doc : Document) (colnames : List String) : String :=
  match firstAlias doc colnames with
  | some v => sanitizeCell (render v)
  | none => "(None)"

/-- The raw cell a document produces for one column: the first present
alias's value, or null — Go appends the untyped `nil` (main.go:442-449). -/
def rawCell (doc : Document) (colnames : List String) : Value :=
  match firstAlias doc colnames with
  | some v => v
  | none => Value.null

/-- The per-document body of getData's `Iter` callback
(main.go:428-451): build the display row and the raw row by appending
one cell per column. -/
def buildRow (columns : Columns) (doc : Document) : List String × List Value :=
  columns.foldl
    (fun (acc : List String × List Value) colnames =>
      match firstAlias doc colnames with
      | some v => (acc.1 ++ [sanitizeCell (render v)], acc.2 ++ [v])
      | none => (acc.1 ++ ["(None)"], acc.2 ++ [Value.null]))
    ([], [])

/-- The accumulator threaded through getData's iteration: the last
row-shape error message (`loadErr`, empty when none) and the two output
matrices (`orderedRows`, `cleanOrderedRows`). -/
structure ProjState where
  loadErr : String
  rows : List (List String)
  cleanRows : List (List Value)

/-- One step of getData's `Iter` callback (main.go:427-458): build the
row pair; if the display row's cell count differs from the column
count, record the error message and drop the document from both
matrices; otherwise append the pair to both matrices.  The callback
returns nil either way, so iteration always continues. -/
def iterStep (columns : Columns) (st : ProjState) (doc : Document) : ProjState :=
  let pair := buildRow columns doc
  if pair.1.length ≠ columns.length then
    { st with loadErr :=
        "Row has " ++ toString pair.1.length ++ " columns, expected " ++
          toString columns.length }
  else
    { st with rows := st.rows ++ [pair.1], cleanRows := st.cleanRows ++ [pair.2] }

/-- getData's full pass over the collection (main.go:419-459): the
store's `Iter` visits every document in store order. -/
def projectDocs (columns : Columns) (docs : List Document) : ProjState :=
  docs.foldl (iterStep columns) ⟨"", [], []⟩

/-- A notification entry (`Message` in main.go, without the purely
visual style and the wall-clock timestamp): its kind tag and its text.
Entries are immutable; the log's order is list order, which is
chronological by construction. -/
structure Message where
  type : String
  text : String
deriving DecidableEq

/-- The model state (`Model` in main.go), restricted to the fields the
specified core reads or writes.  The bingo driver handle is modelled by
the flag `hasDriver`; purely visual state (help, table widget,
viewport, window) is the rendering collaborator's. -/
structure Model where
  databaseFile : String
  hasDriver : Bool
  messages : List Message
  lastMsg : Nat
  activeCollection : Nat
  collections : List String
  columns : Columns
  rowData : List (List String)
  cleanRowData : List (List Value)

/-- `NewModel()` (main.go:162-169): every modelled field starts at its
Go zero value. -/
def NewModel : Model :=
  { databaseFile := "", hasDriver := false, messages := [], lastMsg := 0,
    activeCollection := 0, collections := [], columns := [],
    rowData := [], cleanRowData := [] }

/-- `Model.Info` (main.go:198-205): append an info entry to the log. -/
def Model.Info (m : Model) (msg : String) : Model :=
  { m with messages := m.messages ++ [⟨"info", msg⟩] }

/-- `Model.Error` (main.go:207-214): append an error entry to the log. -/
def Model.Error (m : Model) (msg : String) : Model :=
  { m with messages := m.messages ++ [⟨"error", msg⟩] }

/-- `Model.Success` (main.go:216-223): append a success entry to the log. -/
def Model.Success (m : Model) (msg : String) : Model :=
  { m with messages := m.messages ++ [⟨"success", msg⟩] }

/-- The `ClearMsg` event handler (main.go:233-234): acknowledge by
setting the watermark to the current log length. -/
def Model.clearMsg (m : Model) : Model :=
  { m with lastMsg := m.messages.length }

/-- The unseen-notification count the view computes
(main.go:642-644): `len(m.messages) - m.lastMsg`, Go int subtraction. -/
def Model.unseenCount (m : Model) : Int :=
  (m.messages.length : Int) - (m.lastMsg : Int)

/-- One notification-log operation: the three append kinds and the
acknowledge event. -/
inductive LogOp where
  | info (s : String) : LogOp
  | error (s : String) : LogOp
  | success (s : String) : LogOp
  | clear : LogOp

/-- Apply one log operation to the model. -/
def applyOp (m : Model) : LogOp → Model
  | .info s => m.Info s
  | .error s => m.Error s
  | .success s => m.Success s
  | .clear => m.clearMsg

/-- Apply a sequence of log operations in order. -/
def applyOps (m : Model) (ops : List LogOp) : Model :=
  ops.foldl applyOp m

/-- The entry an append operation adds; `none` for acknowledge. -/
def logEntry : LogOp → Option Message
  | .info s => some ⟨"info", s⟩
  | .error s => some ⟨"error", s⟩
  | .success s => some ⟨"success", s⟩
  | .clear => none

/-- `getData` (main.go:412-478): resolve the columns via the store's
`FieldsOf` (its result is the `fieldsOf` parameter), project every
document of the collection (the store's iteration order is the `docs`
parameter), report a non-empty `loadErr` as one error entry, log the
row count, and install the matrices.  On a `FieldsOf` failure the error
is returned and the model is untouched.  The table-widget calls are the
rendering collaborator's and are not modelled. -/
def getData (m : Model) (fieldsOf : Except String Columns)
    (docs : List Document) : Model × Option String :=
  match fieldsOf with
  | .error e => (m, some e)
  | .ok cols =>
    let m1 := { m with columns := cols }
    let st := projectDocs cols docs
    let m2 := if st.loadErr ≠ "" then m1.Error st.loadErr else m1
    let m3 := m2.Info ("Loaded " ++ toString st.rows.length ++ " row(s)")
    ({ m3 with rowData := st.rows, cleanRowData := st.cleanRows }, none)

/-- The forward collection switch (the Tab branch, main.go:273-292):
guarded by a nil check on the collection list, advance the active
collection cyclically, reload the data, and report a getData failure as
one error entry. -/
def switchCollection (m : Model) (fieldsOf : Except String Columns)
    (docs : List Document) : Model :=
  if m.collections.isEmpty then m
  else
    let m1 := { m with
      activeCollection := (m.activeCollection + 1) % m.collections.length }
    match getData m1 fieldsOf docs with
    | (m2, some e) => m2.Error ("Failed to get columns: " ++ e)
    | (m2, none) => m2

/-- The file dialog's outcome (external collaborator): cancelled,
failed, or a chosen path. -/
inductive DialogResult where
  | cancelled : DialogResult
  | failed (e : String) : DialogResult
  | chosen (path : String) : DialogResult

/-- The outcome of racing `bingo.NewDriver` against the 5-second timer
(main.go:322-344): the timer fires first, the open fails explicitly, or
the driver arrives. -/
inductive DriverResult where
  | timeout : DriverResult
  | openFailed (e : String) : DriverResult
  | opened : DriverResult
deriving DecidableEq

/-- `loadDatabaseDialog` (main.go:310-362): run the file dialog, record
the chosen path in `DatabaseFile` (before the open attempt), race the
driver open against the timer, then list the collections and load the
first one's data; every failure is logged.  The success entry is
appended even when getData failed (as in the source). -/
def loadDatabaseDialog (m : Model) (dlg : DialogResult) (drv : DriverResult)
    (getCollections : Except String (List String))
    (fieldsOf : Except String Columns) (docs : List Document) : Model :=
  match dlg with
  | .cancelled => m.Error "Open database cancelled"
  | .failed e => m.Error ("Open database failed: " ++ e)
  | .chosen path =>
    let m1 := { m with databaseFile := path }
    match drv with
    | .timeout =>
      m1.Error "Open database timed out, maybe it's opened sommewhere else?"
    | .openFailed e => m1.Error ("Open database failed: " ++ e)
    | .opened =>
      let m2 := { m1 with hasDriver := true }
      match getCollections with
      | .error e => m2.Error ("Failed to get collections: " ++ e)
      | .ok colls =>
        let m3 := { m2 with collections := colls }
        let m4 := match getData m3 fieldsOf docs with
          | (mx, some e) => mx.Error ("Failed to get columns: " ++ e)
          | (mx, none) => mx
        m4.Success ("Opened database: " ++ path)

/-- The alias scan of `lookup`'s query filter (main.go:397-404): for
one column, every alias present in the candidate document must render
to the row's display cell at that column, otherwise the candidate is
rejected. -/
def aliasCheck (doc : Document) (cell : String) : List String → Bool
  | [] => true
  | colname :: rest =>
    match lookupDoc doc colname with
    | some val => if render val ≠ cell then false else aliasCheck doc cell rest
    | none => aliasCheck doc cell rest

/-- `lookup`'s query filter (main.go:396-407), walking the columns and
the row's display cells in parallel (the filter is only ever applied
with a row of the projector, whose length equals the column count). -/
def lookupFilter (doc : Document) : Columns → List String → Bool
  | colnames :: cols, cell :: cells =>
    aliasCheck doc cell colnames && lookupFilter doc cols cells
  | _, _ => true

/-- `lookup` (main.go:392-410): take the display row at `row`, re-query
the full collection (the store's order is the `docs` parameter) with
the filter, and dereference `First()`.  `First()` is the first matching
document or nil; the source dereferences it unconditionally, so the
`none` result here marks a nil-pointer dereference (a runtime panic),
not a reported error.  In the source `rowData` is `[][]any`, but its
cells are always the strings getData produced, so it is typed as string
rows here and the interface comparison at main.go:400 is string
equality. -/
def lookup (columns : Columns) (rowData : List (List String))
    (docs : List Document) (row : Nat) : Option Document :=
  let rowDoc := rowData.getD row []
  (docs.filter (fun d => lookupFilter d columns rowDoc)).head?

/-- The locate predicate as the specification words it: for every
column and for every alias of that column present as a key of the
candidate document, the rendered-to-string form of the document's value
under that alias equals the display cell at that column. -/
def locatePredSpec (columns : Columns) (rowDoc : List String)
    (doc : Document) : Prop :=
  ∀ i, i < columns.length → ∀ a ∈ columns.getD i [], ∀ v,
    lookupDoc doc a = some v → render v = rowDoc.getD i ""

/-! ## Basic lemmas about the alias scan -/

theorem firstAlias_append_none (doc : Document) (pre g : List String)
    (h : ∀ b ∈ pre, lookupDoc doc b = none) :
    firstAlias doc (pre ++ g) = firstAlias doc g := by
  induction pre with
  | nil => rfl
  | cons c cs ih =>
    have hc : lookupDoc doc c = none := h c (List.mem_cons_self c cs)
    simp only [List.cons_append, firstAlias, hc]
    exact ih (fun b hb => h b (List.mem_cons_of_mem c hb))

theorem firstAlias_none_of_all (doc : Document) (g : List String)
    (h : ∀ b ∈ g, lookupDoc doc b = none) :
    firstAlias doc g = none := by
  induction g with
  | nil => rfl
  | cons c cs ih =>
    have hc : lookupDoc doc c = none := h c (List.mem_cons_self c cs)
    simp only [firstAlias, hc]
    exact ih (fun b hb => h b (List.mem_cons_of_mem c hb))

/-! ## C1: the per-cell first-match projection rule -/

/-- C1: for every document and every column alias group, the first
alias present as a key in the document determines the cell — the raw
cell is that alias's value and the display cell is its sanitized
rendering — regardless of the later aliases; if no alias is present,
the raw cell is null and the display cell is the literal "(None)". -/
theorem claim1_first_match (doc : Document) (g : List String) :
    (∀ pre a post v, g = pre ++ a :: post →
      (∀ b ∈ pre, lookupDoc doc b = none) → lookupDoc doc a = some v →
      displayCell doc g = sanitizeCell (render v) ∧ rawCell doc g = v) ∧
    ((∀ b ∈ g, lookupDoc doc b = none) →
      displayCell doc g = "(None)" ∧ rawCell doc g = Value.null) := by
  constructor
  · intro pre a post v hg hpre ha
    subst hg
    have h1 : firstAlias doc (pre ++ a :: post) = some v := by
      rw [firstAlias_append_none doc pre (a :: post) hpre]
      simp only [firstAlias, ha]
    exact ⟨by simp only [displayCell, h1], by simp only [rawCell, h1]⟩
  · intro h
    have h1 := firstAlias_none_of_all doc g h
    exact ⟨by simp only [displayCell, h1], by simp only [rawCell, h1]⟩

/-- Witness for C1, on the specification's own scenario: the column
{"name","nm"} projected over D2 = {"nm": "b"} (where the first alias is
absent and the second matches) and over D3 = {} (no alias present);
the display values evaluate to "b" and "(None)". -/
theorem claim1_first_match_witness :
    (displayCell [("nm", Value.str "b")] ["name", "nm"] =
        sanitizeCell (render (Value.str "b")) ∧
      rawCell [("nm", Value.str "b")] ["name", "nm"] = Value.str "b") ∧
    (displayCell [] ["name", "nm"] = "(None)" ∧
      rawCell [] ["name", "nm"] = Value.null) ∧
    displayCell [("nm", Value.str "b")] ["name", "nm"] = "b" := by
  refine ⟨?_, ?_, rfl⟩
  · refine (claim1_first_match [("nm", Value.str "b")] ["name", "nm"]).1
      ["name"] "nm" [] (Value.str "b") rfl ?_ rfl
    intro b hb
    rw [List.mem_singleton] at hb
    subst hb
    rfl
  · refine (claim1_first_match [] ["name", "nm"]).2 ?_
    intro b _
    rfl

/-! ## Structural lemmas about the projector -/

theorem buildRow_eq (columns : Columns) (doc : Document) :
    buildRow columns doc =
      (columns.map (displayCell doc), columns.map (rawCell doc)) := by
  suffices h : ∀ (cols : Columns) (acc : List String × List Value),
      cols.foldl
        (fun (acc : List String × List Value) colnames =>
          match firstAlias doc colnames with
          | some v => (acc.1 ++ [sanitizeCell (render v)], acc.2 ++ [v])
          | none => (acc.1 ++ ["(None)"], acc.2 ++ [Value.null])) acc =
        (acc.1 ++ cols.map (displayCell doc), acc.2 ++ cols.map (rawCell doc)) by
    simpa [buildRow] using h columns ([], [])
  intro cols
  induction cols with
  | nil => intro acc; simp
  | cons g gs ih =>
    intro acc
    simp only [List.foldl_cons, List.map_cons]
    cases hfa : firstAlias doc g with
    | some v =>
      simp only [hfa, ih, displayCell, rawCell, List.append_assoc,
        List.singleton_append]
    | none =>
      simp only [hfa, ih, displayCell, rawCell, List.append_assoc,
        List.singleton_append]

theorem buildRow_length (columns : Columns) (doc : Document) :
    (buildRow columns doc).1.length = columns.length ∧
      (buildRow columns doc).2.length = columns.length := by
  rw [buildRow_eq]
  exact ⟨List.length_map _ _, List.length_map _ _⟩

/-- The row-shape check of `iterStep`, as the Boolean the filter
characterization uses. -/
def rowOk (columns : Columns) (doc : Document) : Bool :=
  (buildRow columns doc).1.length == columns.length

theorem iterStep_ok (columns : Columns) (st : ProjState) (doc : Document)
    (h : (buildRow columns doc).1.length = columns.length) :
    iterStep columns st doc =
      ⟨st.loadErr, st.rows ++ [(buildRow columns doc).1],
        st.cleanRows ++ [(buildRow columns doc).2]⟩ := by
  simp only [iterStep, h, ne_eq, not_true_eq_false, if_false]

theorem iterStep_reject (columns : Columns) (st : ProjState) (doc : Document)
    (h : (buildRow columns doc).1.length ≠ columns.length) :
    iterStep columns st doc =
      ⟨"Row has " ++ toString (buildRow columns doc).1.length ++
          " columns, expected " ++ toString columns.length,
        st.rows, st.cleanRows⟩ := by
  simp only [iterStep, h, ne_eq, not_false_eq_true, if_true]

theorem projectDocs_foldl_char (columns : Columns) (docs : List Document) :
    ∀ st : ProjState,
      (docs.foldl (iterStep columns) st).rows =
        st.rows ++ (docs.filter (rowOk columns)).map
          (fun d => (buildRow columns d).1) ∧
      (docs.foldl (iterStep columns) st).cleanRows =
        st.cleanRows ++ (docs.filter (rowOk columns)).map
          (fun d => (buildRow columns d).2) := by
  induction docs with
  | nil => intro st; simp
  | cons d ds ih =>
    intro st
    by_cases h : (buildRow columns d).1.length = columns.length
    · have hok : rowOk columns d = true := by
        simp only [rowOk, beq_iff_eq, h]
      simp only [List.foldl_cons, iterStep_ok columns st d h, List.filter_cons,
        hok, if_true, List.map_cons]
      have hih := ih ⟨st.loadErr, st.rows ++ [(buildRow columns d).1],
        st.cleanRows ++ [(buildRow columns d).2]⟩
      simp only at hih
      rw [hih.1, hih.2]
      constructor <;> simp [List.append_assoc]
    · have hok : rowOk columns d = false := by
        simp only [rowOk]
        exact beq_eq_false_iff_ne.mpr h
      simp only [List.foldl_cons, iterStep_reject columns st d h,
        List.filter_cons, hok, Bool.false_eq_true, if_false]
      have hih := ih ⟨"Row has " ++ toString (buildRow columns d).1.length ++
        " columns, expected " ++ toString columns.length, st.rows, st.cleanRows⟩
      simp only at hih
      exact hih

theorem projectDocs_loadErr_all_ok (columns : Columns) (docs : List Document)
    (h : ∀ d ∈ docs, (buildRow columns d).1.length = columns.length) :
    ∀ st : ProjState, (docs.foldl (iterStep columns) st).loadErr = st.loadErr := by
  induction docs with
  | nil => intro st; rfl
  | cons d ds ih =>
    intro st
    have hd := h d (List.mem_cons_self d ds)
    simp only [List.foldl_cons, iterStep_ok columns st d hd]
    exact ih (fun e he => h e (List.mem_cons_of_mem d he)) _

/-- Partition of a list's length by a Boolean predicate. -/
theorem length_filter_partition {α : Type} (p : α → Bool) (l : List α) :
    l.length = (l.filter p).length + (l.filter (fun a => !(p a))).length := by
  induction l with
  | nil => rfl
  | cons a t ih =>
    cases h : p a <;>
      simp [List.filter_cons, h, ih, Nat.add_assoc, Nat.add_comm,
        Nat.add_left_comm]

/-! ## C10, C3, C6: shape of the projector's output -/

/-- C10: the per-document loop appends exactly one display cell and one
raw cell per column, so every visited document's cell count equals the
column count; the rejection branch is unreachable (`loadErr` stays
empty), every visited document lands in both output matrices, and the
effective rejected count is zero. -/
theorem claim10_rejection_unreachable (columns : Columns) (docs : List Document) :
    (∀ doc : Document, (buildRow columns doc).1.length = columns.length ∧
      (buildRow columns doc).2.length = columns.length) ∧
    (projectDocs columns docs).rows =
      docs.map (fun d => (buildRow columns d).1) ∧
    (projectDocs columns docs).cleanRows =
      docs.map (fun d => (buildRow columns d).2) ∧
    (projectDocs columns docs).loadErr = "" ∧
    (projectDocs columns docs).rows.length = docs.length := by
  have hlen := fun doc => buildRow_length columns doc
  have hfilter : docs.filter (rowOk columns) = docs := by
    apply List.filter_eq_self.mpr
    intro d _
    simp only [rowOk, beq_iff_eq, (hlen d).1]
  have hchar := projectDocs_foldl_char columns docs ⟨"", [], []⟩
  simp only at hchar
  have hrows : (projectDocs columns docs).rows =
      docs.map (fun d => (buildRow columns d).1) := by
    have := hchar.1
    rw [hfilter] at this
    simpa [projectDocs] using this
  have hclean : (projectDocs columns docs).cleanRows =
      docs.map (fun d => (buildRow columns d).2) := by
    have := hchar.2
    rw [hfilter] at this
    simpa [projectDocs] using this
  refine ⟨hlen, hrows, hclean, ?_, ?_⟩
  · exact projectDocs_loadErr_all_ok columns docs (fun d _ => (hlen d).1) ⟨"", [], []⟩
  · rw [hrows, List.length_map]

/-- C3: every row pair the projector emits satisfies
`len(DisplayRow) = len(RawRow) = len(Columns)`, and both output
matrices are the image of the same shape-filtered document list, so a
document with a mismatched cell count is excluded from both matrices,
never partially included in one. -/
theorem claim3_shape_invariant (columns : Columns) (docs : List Document) :
    (∀ r ∈ (projectDocs columns docs).rows, r.length = columns.length) ∧
    (∀ r ∈ (projectDocs columns docs).cleanRows, r.length = columns.length) ∧
    (projectDocs columns docs).rows =
      (docs.filter (rowOk columns)).map (fun d => (buildRow columns d).1) ∧
    (projectDocs columns docs).cleanRows =
      (docs.filter (rowOk columns)).map (fun d => (buildRow columns d).2) := by
  have hchar := projectDocs_foldl_char columns docs ⟨"", [], []⟩
  simp only at hchar
  have hrows : (projectDocs columns docs).rows =
      (docs.filter (rowOk columns)).map (fun d => (buildRow columns d).1) := by
    simpa [projectDocs] using hchar.1
  have hclean : (projectDocs columns docs).cleanRows =
      (docs.filter (rowOk columns)).map (fun d => (buildRow columns d).2) := by
    simpa [projectDocs] using hchar.2
  refine ⟨?_, ?_, hrows, hclean⟩
  · intro r hr
    rw [hrows] at hr
    obtain ⟨d, _, rfl⟩ := List.mem_map.mp hr
    exact (buildRow_length columns d).1
  · intro r hr
    rw [hclean] at hr
    obtain ⟨d, _, rfl⟩ := List.mem_map.mp hr
    exact (buildRow_length columns d).2

/-- Witness for C3, on the specification's scenario: the display row
["a"] emitted for D1 and the raw row emitted for D3 both have the
column count 1. -/
theorem claim3_shape_invariant_witness :
    ["a"] ∈ (projectDocs [["name", "nm"]]
        [[("name", Value.str "a")], [("nm", Value.str "b")], []]).rows ∧
    List.length ["a"] = List.length [["name", "nm"]] := by
  have hrows : (projectDocs [["name", "nm"]]
      [[("name", Value.str "a")], [("nm", Value.str "b")], []]).rows =
      [["a"], ["b"], ["(None)"]] := by rfl
  have hmem : ["a"] ∈ (projectDocs [["name", "nm"]]
      [[("name", Value.str "a")], [("nm", Value.str "b")], []]).rows := by
    rw [hrows]
    exact List.mem_cons_self _ _
  exact ⟨hmem, (claim3_shape_invariant [["name", "nm"]]
    [[("name", Value.str "a")], [("nm", Value.str "b")], []]).1 ["a"] hmem⟩

/-- C6: rejected documents are counted exactly once each (the deficit
between visited documents and emitted rows equals the number of
mismatched documents), processing continues through the remaining
documents (the outputs are the filtered map over the whole input), the
rejections surface as at most one summary error entry appended after
the pass, and getData still returns without an error. -/
theorem claim6_rejection_summary (m : Model) (columns : Columns)
    (docs : List Document) :
    docs.length = (projectDocs columns docs).rows.length +
      (docs.filter (fun d => !(rowOk columns d))).length ∧
    (projectDocs columns docs).rows =
      (docs.filter (rowOk columns)).map (fun d => (buildRow columns d).1) ∧
    ((getData m (.ok columns) docs).1).messages =
      m.messages ++
        (if (projectDocs columns docs).loadErr = "" then []
          else [⟨"error", (projectDocs columns docs).loadErr⟩]) ++
        [⟨"info", "Loaded " ++
          toString (projectDocs columns docs).rows.length ++ " row(s)"⟩] ∧
    (getData m (.ok columns) docs).2 = none := by
  have hrows := (claim3_shape_invariant columns docs).2.2.1
  refine ⟨?_, hrows, ?_, rfl⟩
  · rw [hrows, List.length_map]
    exact length_filter_partition (rowOk columns) docs
  · by_cases h : (projectDocs columns docs).loadErr = ""
    · simp [getData, Model.Error, Model.Info, h]
    · simp [getData, Model.Error, Model.Info, h]

/-! ## C4: the notification-log watermark law -/

theorem length_filterMap_all_some {α β : Type} (f : α → Option β) (l : List α)
    (h : ∀ a ∈ l, (f a).isSome) : (l.filterMap f).length = l.length := by
  induction l with
  | nil => rfl
  | cons a t ih =>
    have ha := h a (List.mem_cons_self a t)
    obtain ⟨b, hb⟩ := Option.isSome_iff_exists.mp ha
    rw [List.filterMap_cons, hb, List.length_cons,
      ih (fun x hx => h x (List.mem_cons_of_mem a hx)), List.length_cons]

theorem applyOp_entry (m : Model) (op : LogOp) (e : Message)
    (h : logEntry op = some e) :
    (applyOp m op).messages = m.messages ++ [e] ∧
      (applyOp m op).lastMsg = m.lastMsg := by
  cases op with
  | info s =>
    simp only [logEntry, Option.some_inj] at h
    subst h
    exact ⟨rfl, rfl⟩
  | error s =>
    simp only [logEntry, Option.some_inj] at h
    subst h
    exact ⟨rfl, rfl⟩
  | success s =>
    simp only [logEntry, Option.some_inj] at h
    subst h
    exact ⟨rfl, rfl⟩
  | clear => simp [logEntry] at h

theorem applyOps_append_char (ops : List LogOp)
    (hap : ∀ op ∈ ops, (logEntry op).isSome) :
    ∀ m : Model, (applyOps m ops).messages = m.messages ++ ops.filterMap logEntry ∧
      (applyOps m ops).lastMsg = m.lastMsg := by
  induction ops with
  | nil => intro m; simp [applyOps]
  | cons op rest ih =>
    intro m
    have hop := hap op (List.mem_cons_self op rest)
    obtain ⟨e, he⟩ := Option.isSome_iff_exists.mp hop
    have hstep := applyOp_entry m op e he
    have hrest := ih (fun x hx => hap x (List.mem_cons_of_mem op hx)) (applyOp m op)
    have hfold : applyOps m (op :: rest) = applyOps (applyOp m op) rest := rfl
    constructor
    · rw [hfold, hrest.1, hstep.1]
      simp [List.filterMap_cons, he, List.append_assoc]
    · rw [hfold, hrest.2, hstep.2]

/-- C4: after N appends with no acknowledge the unseen count is N;
immediately after acknowledge (which sets the watermark to the current
length) it is 0; one further append makes it 1; in general the unseen
count is max(0, length - watermark); and appends extend the log at its
end, preserving append order. -/
theorem claim4_watermark (m : Model) (ops : List LogOp)
    (hap : ∀ op ∈ ops, (logEntry op).isSome)
    (hwm : m.lastMsg ≤ m.messages.length) :
    Model.unseenCount (applyOps m.clearMsg ops) = ops.length ∧
    Model.unseenCount (applyOps m.clearMsg ops).clearMsg = 0 ∧
    Model.unseenCount ((applyOps m.clearMsg ops).clearMsg.Info "y") = 1 ∧
    Model.unseenCount m = max 0 ((m.messages.length : Int) - (m.lastMsg : Int)) ∧
    (applyOps m.clearMsg ops).messages = m.messages ++ ops.filterMap logEntry := by
  have hchar := applyOps_append_char ops hap m.clearMsg
  have hmsgs : (applyOps m.clearMsg ops).messages =
      m.messages ++ ops.filterMap logEntry := by
    rw [hchar.1]
    rfl
  have hlast : (applyOps m.clearMsg ops).lastMsg = m.messages.length := by
    rw [hchar.2]
    rfl
  have hlenmap : (ops.filterMap logEntry).length = ops.length :=
    length_filterMap_all_some logEntry ops hap
  have hlen : (applyOps m.clearMsg ops).messages.length =
      m.messages.length + ops.length := by
    rw [hmsgs, List.length_append, hlenmap]
  refine ⟨?_, ?_, ?_, ?_, hmsgs⟩
  · simp only [Model.unseenCount, hlen, hlast]
    push_cast
    ring
  · simp only [Model.unseenCount, Model.clearMsg]
    ring
  · simp only [Model.unseenCount, Model.Info, Model.clearMsg,
      List.length_append, List.length_singleton]
    push_cast
    ring
  · have h0 : (0 : Int) ≤ (m.messages.length : Int) - (m.lastMsg : Int) := by
      omega
    rw [max_eq_right h0]
    rfl

/-- Witness for C4, on the specification's scenario 5: three error
appends from the fresh model give unseen count 3, acknowledge resets it
to 0, and one further info append makes it 1. -/
theorem claim4_watermark_witness :
    Model.unseenCount (applyOps NewModel.clearMsg
      [LogOp.error "x", LogOp.error "x", LogOp.error "x"]) = 3 ∧
    Model.unseenCount (applyOps NewModel.clearMsg
      [LogOp.error "x", LogOp.error "x", LogOp.error "x"]).clearMsg = 0 ∧
    Model.unseenCount ((applyOps NewModel.clearMsg
      [LogOp.error "x", LogOp.error "x", LogOp.error "x"]).clearMsg.Info "y") = 1 := by
  have h := claim4_watermark NewModel [LogOp.error "x", LogOp.error "x", LogOp.error "x"]
    (by intro op hop
        simp only [List.mem_cons, List.not_mem_nil, or_false] at hop
        rcases hop with rfl | rfl | rfl <;> rfl)
    (by simp [NewModel])
  exact ⟨h.1, h.2.1, h.2.2.1⟩

/-! ## C7: failure atomicity of collection switch and database open -/

/-- Counterexample to C7 as stated: starting from the fresh model (no
database open), a timed-out open does not leave the no-database state
intact — main.go:320 assigns `DatabaseFile` before the open attempt, so
after the timeout the model carries the chosen path instead of the
empty no-database marker. -/
theorem claim7_counterexample :
    (loadDatabaseDialog NewModel (DialogResult.chosen "x.db") DriverResult.timeout
        (Except.ok []) (Except.ok []) []).databaseFile = "x.db" ∧
    NewModel.databaseFile = "" ∧
    ¬ (loadDatabaseDialog NewModel (DialogResult.chosen "x.db") DriverResult.timeout
        (Except.ok []) (Except.ok []) []).databaseFile = NewModel.databaseFile := by
  refine ⟨rfl, rfl, ?_⟩
  intro h
  simp only [loadDatabaseDialog, Model.Error, NewModel] at h
  exact absurd h (by decide)

/-- C7 amended: a SchemaError during a collection switch aborts it,
leaving the previous columns and rows intact and appending one error
entry; an OpenError or TimeoutError during a database open aborts it,
leaving the driver, collections, columns and rows intact and appending
one error entry — but `DatabaseFile` has already been set to the chosen
path before the open attempt and keeps that value on failure; both
paths return normally (never a crash). -/
theorem claim7_failure_atomicity (m : Model) (e path : String)
    (docs : List Document) (drv : DriverResult)
    (gc : Except String (List String)) (fieldsOf : Except String Columns)
    (hdrv : drv ≠ DriverResult.opened) :
    ((switchCollection m (Except.error e) docs).columns = m.columns ∧
      (switchCollection m (Except.error e) docs).rowData = m.rowData ∧
      (switchCollection m (Except.error e) docs).cleanRowData = m.cleanRowData ∧
      (m.collections.isEmpty = false →
        (switchCollection m (Except.error e) docs).messages =
          m.messages ++ [⟨"error", "Failed to get columns: " ++ e⟩])) ∧
    ((loadDatabaseDialog m (DialogResult.chosen path) drv gc fieldsOf
        docs).hasDriver = m.hasDriver ∧
      (loadDatabaseDialog m (DialogResult.chosen path) drv gc fieldsOf
        docs).collections = m.collections ∧
      (loadDatabaseDialog m (DialogResult.chosen path) drv gc fieldsOf
        docs).columns = m.columns ∧
      (loadDatabaseDialog m (DialogResult.chosen path) drv gc fieldsOf
        docs).rowData = m.rowData ∧
      (loadDatabaseDialog m (DialogResult.chosen path) drv gc fieldsOf
        docs).cleanRowData = m.cleanRowData ∧
      (∃ t, (loadDatabaseDialog m (DialogResult.chosen path) drv gc fieldsOf
        docs).messages = m.messages ++ [⟨"error", t⟩]) ∧
      (loadDatabaseDialog m (DialogResult.chosen path) drv gc fieldsOf
        docs).databaseFile = path) := by
  constructor
  · cases hc : m.collections.isEmpty with
    | true =>
      have hsw : switchCollection m (Except.error e) docs = m := by
        simp only [switchCollection, hc, if_true]
      rw [hsw]
      exact ⟨rfl, rfl, rfl,
        fun hfalse => Bool.noConfusion hfalse⟩
    | false =>
      have hsw : switchCollection m (Except.error e) docs =
          Model.Error
            { m with activeCollection :=
                (m.activeCollection + 1) % m.collections.length }
            ("Failed to get columns: " ++ e) := by
        simp only [switchCollection, hc, Bool.false_eq_true, if_false, getData]
      rw [hsw]
      exact ⟨rfl, rfl, rfl, fun _ => rfl⟩
  · cases drv with
    | timeout =>
      exact ⟨rfl, rfl, rfl, rfl, rfl,
        ⟨"Open database timed out, maybe it's opened sommewhere else?", rfl⟩, rfl⟩
    | openFailed e2 =>
      exact ⟨rfl, rfl, rfl, rfl, rfl, ⟨"Open database failed: " ++ e2, rfl⟩, rfl⟩
    | opened => exact absurd rfl hdrv

/-- Witness for C7 amended: a timed-out open from the fresh model and a
SchemaError switch on a one-collection model leave the columns intact. -/
theorem claim7_failure_atomicity_witness :
    (loadDatabaseDialog NewModel (DialogResult.chosen "x.db") DriverResult.timeout
        (Except.ok []) (Except.ok []) []).collections = NewModel.collections ∧
    (switchCollection NewModel (Except.error "boom") []).columns =
      NewModel.columns ∧
    (loadDatabaseDialog NewModel (DialogResult.chosen "x.db") DriverResult.timeout
        (Except.ok []) (Except.ok []) []).databaseFile = "x.db" := by
  have h := claim7_failure_atomicity NewModel "boom" "x.db" [] DriverResult.timeout
    (Except.ok []) (Except.ok []) (by intro hx; cases hx)
  exact ⟨h.2.2.1, h.1.1, h.2.2.2.2.2.2.2⟩

/-! ## C2: the record locator's predicate and its no-match behaviour -/

theorem head?_filter_eq_find? {α : Type} (p : α → Bool) (l : List α) :
    (l.filter p).head? = l.find? p := by
  induction l with
  | nil => rfl
  | cons a t ih =>
    cases h : p a <;> simp [List.filter_cons, List.find?_cons, h, ih]

theorem aliasCheck_iff (doc : Document) (cell : String) (g : List String) :
    aliasCheck doc cell g = true ↔
      ∀ a ∈ g, ∀ v, lookupDoc doc a = some v → render v = cell := by
  induction g with
  | nil => simp [aliasCheck]
  | cons c cs ih =>
    cases h : lookupDoc doc c with
    | none =>
      simp only [aliasCheck, h, ih, List.forall_mem_cons]
      constructor
      · intro hcs
        refine ⟨fun v hv => ?_, hcs⟩
        cases hv
      · intro hAll
        exact hAll.2
    | some val =>
      simp only [aliasCheck, h, List.forall_mem_cons]
      by_cases hr : render val = cell
      · rw [if_neg (by simp [hr]), ih]
        constructor
        · intro hcs
          refine ⟨fun v hv => ?_, hcs⟩
          injection hv with hv2
          rw [← hv2]
          exact hr
        · intro hAll
          exact hAll.2
      · rw [if_pos (by simp [hr])]
        simp only [Bool.false_eq_true, false_iff, not_and]
        intro hc
        exact absurd (hc val rfl) hr

theorem lookupFilter_iff (doc : Document) :
    ∀ (cols : Columns) (cells : List String), cells.length = cols.length →
      (lookupFilter doc cols cells = true ↔
        ∀ i, i < cols.length →
          aliasCheck doc (cells.getD i "") (cols.getD i []) = true) := by
  intro cols
  induction cols with
  | nil =>
    intro cells _
    simp [lookupFilter]
  | cons g gs ih =>
    intro cells h
    cases cells with
    | nil => simp at h
    | cons cell rest =>
      simp only [lookupFilter, Bool.and_eq_true]
      have hlen : rest.length = gs.length := by simpa using h
      rw [ih rest hlen]
      constructor
      · rintro ⟨h1, h2⟩ i hi
        cases i with
        | zero => simpa [List.getD_cons_zero] using h1
        | succ j =>
          have hj : j < gs.length := by simpa using hi
          simpa [List.getD_cons_succ] using h2 j hj
      · intro hAll
        refine ⟨by simpa [List.getD_cons_zero] using hAll 0 (by simp), ?_⟩
        intro j hj
        have := hAll (j + 1) (by simpa using hj)
        simpa [List.getD_cons_succ] using this

/-- Counterexample to C2 as stated: a store in which no document
satisfies the predicate.  The only document renders "a" while the
display cell is "zzz", so the filter rejects it; `First()` is nil and
main.go:409 dereferences it unconditionally — the embedded `lookup`
yields `none`, which is a nil-pointer panic in the source, not a
`LocatorNotFound` error reported to the caller (no such error value
exists in the code). -/
theorem claim2_counterexample :
    lookup [["name"]] [["zzz"]] [[("name", Value.str "a")]] 0 = none ∧
    lookupFilter [("name", Value.str "a")] [["name"]] ["zzz"] = false := by
  exact ⟨rfl, rfl⟩

/-- C2 amended: `lookup` builds exactly the predicate the claim
describes (every alias of every column that is present in the candidate
must render to the display cell at that column), re-queries the
collection and yields the first satisfying document in store order;
when no document satisfies the predicate, the result of `First()` is
nil and `lookup` dereferences it — a panic, not a reported
`LocatorNotFound`. -/
theorem claim2_locator (columns : Columns) (rows : List (List String))
    (docs : List Document) (row : Nat)
    (hlen : (rows.getD row []).length = columns.length) :
    (∀ d : Document,
      (lookupFilter d columns (rows.getD row []) = true ↔
        locatePredSpec columns (rows.getD row []) d)) ∧
    lookup columns rows docs row =
      docs.find? (fun d => lookupFilter d columns (rows.getD row [])) ∧
    (lookup columns rows docs row = none ↔
      ∀ d ∈ docs, lookupFilter d columns (rows.getD row []) = false) := by
  have hfind : lookup columns rows docs row =
      docs.find? (fun d => lookupFilter d columns (rows.getD row [])) :=
    head?_filter_eq_find? _ docs
  refine ⟨?_, hfind, ?_⟩
  · intro d
    rw [lookupFilter_iff d columns (rows.getD row []) hlen]
    constructor
    · intro hAll i hi a ha v hv
      have := (aliasCheck_iff d ((rows.getD row []).getD i "")
        (columns.getD i [])).mp (hAll i hi)
      exact this a ha v hv
    · intro hspec i hi
      exact (aliasCheck_iff d ((rows.getD row []).getD i "")
        (columns.getD i [])).mpr (fun a ha v hv => hspec i hi a ha v hv)
  · rw [hfind, List.find?_eq_none]
    constructor
    · intro hAll d hd
      simpa using hAll d hd
    · intro hAll d hd
      simpa using hAll d hd

/-- Witness for C2 amended, on the specification's scenario: the lookup
of row 1 resolves through the predicate to the first matching document
D2 = {"nm": "b"}. -/
theorem claim2_locator_witness :
    lookup [["name", "nm"]] [["a"], ["b"], ["(None)"]]
        [[("name", Value.str "a")], [("nm", Value.str "b")], []] 1 =
      ([[("name", Value.str "a")], [("nm", Value.str "b")], []].find?
        (fun d => lookupFilter d [["name", "nm"]]
          ([["a"], ["b"], ["(None)"]].getD 1 []))) ∧
    lookup [["name", "nm"]] [["a"], ["b"], ["(None)"]]
        [[("name", Value.str "a")], [("nm", Value.str "b")], []] 1 =
      some [("nm", Value.str "b")] := by
  refine ⟨?_, rfl⟩
  exact (claim2_locator [["name", "nm"]] [["a"], ["b"], ["(None)"]]
    [[("name", Value.str "a")], [("nm", Value.str "b")], []] 1 rfl).2.1

/-! ## C8: the locator round-trip -/

theorem firstAlias_mem (doc : Document) (g : List String) (v : Value)
    (h : firstAlias doc g = some v) : ∃ a ∈ g, lookupDoc doc a = some v := by
  induction g with
  | nil => cases h
  | cons c cs ih =>
    cases hc : lookupDoc doc c with
    | some val =>
      simp only [firstAlias, hc] at h
      injection h with h2
      subst h2
      exact ⟨c, List.mem_cons_self c cs, hc⟩
    | none =>
      simp only [firstAlias, hc] at h
      obtain ⟨a, ha, hav⟩ := ih h
      exact ⟨a, List.mem_cons_of_mem c ha, hav⟩

theorem filter_idem_char (p : Char → Bool) (l : List Char) :
    (l.filter p).filter p = l.filter p := by
  induction l with
  | nil => rfl
  | cons c t ih => cases h : p c <;> simp [List.filter_cons, h, ih]

theorem filterMap_if_eq_filter (p : Char → Bool) (l : List Char) :
    l.filterMap (fun r => if p r then some r else none) = l.filter p := by
  induction l with
  | nil => rfl
  | cons c t ih => cases h : p c <;> simp [List.filterMap_cons, List.filter_cons, h, ih]

theorem sanitizeCell_eq_filter (s : String) :
    sanitizeCell s = String.mk (s.data.filter unicode_IsPrint) := by
  simp only [sanitizeCell, strings_Map, filterMap_if_eq_filter]

theorem sanitizeCell_idem (s : String) :
    sanitizeCell (sanitizeCell s) = sanitizeCell s := by
  simp only [sanitizeCell_eq_filter]
  exact congrArg String.mk (filter_idem_char unicode_IsPrint s.data)

theorem getD_mem_of_lt {α : Type} (l : List α) (j : Nat) (d : α)
    (h : j < l.length) : l.getD j d ∈ l := by
  induction l generalizing j with
  | nil => simp at h
  | cons a t ih =>
    cases j with
    | zero => simp
    | succ k =>
      have hk : k < t.length := by simpa using h
      simp only [List.getD_cons_succ]
      exact List.mem_cons_of_mem a (ih k hk)

/-- Counterexample to C8 as stated: with columns [{"name","nm"}] and
the store [{}, {"name":"a"}], the two documents' display rows
["(None)"] and ["a"] differ, so no two rows collide after
sanitization; yet `locate(1)` — for the row produced by the document
{"name":"a"} — returns the empty document, because a document with no
alias present satisfies the predicate vacuously and comes first in
store order; its projection ["(None)"] differs from the row's display
cells ["a"]. -/
theorem claim8_counterexample :
    (projectDocs [["name", "nm"]] [[], [("name", Value.str "a")]]).rows =
      [["(None)"], ["a"]] ∧
    lookup [["name", "nm"]] [["(None)"], ["a"]]
      [[], [("name", Value.str "a")]] 1 = some [] ∧
    (buildRow [["name", "nm"]] ([] : Document)).1 = ["(None)"] ∧
    (["(None)"] : List String) ≠ ["a"] := by
  refine ⟨rfl, rfl, rfl, ?_⟩
  decide

/-- C8 amended: `locate(rowPosition)` returns the first document
satisfying the predicate; at every column where that document has at
least one alias present, its projected display cell equals the row's
display cell (given the row's cells are fixed points of sanitization,
as all projector-produced cells are).  The round-trip to the full row
can fail when the first match lacks every alias of some column, since
a missing alias constrains nothing.  In particular, on the
specification's scenario `locate(1)` returns D2 = {"nm": "b"}. -/
theorem claim8_roundtrip (columns : Columns) (rows : List (List String))
    (docs : List Document) (row : Nat) (d : Document)
    (hlen : (rows.getD row []).length = columns.length)
    (hfix : ∀ cell ∈ rows.getD row [], sanitizeCell cell = cell)
    (hlk : lookup columns rows docs row = some d) :
    (∀ j, j < columns.length → ∀ v,
      firstAlias d (columns.getD j []) = some v →
      displayCell d (columns.getD j []) = (rows.getD row []).getD j "") ∧
    lookup [["name", "nm"]] [["a"], ["b"], ["(None)"]]
      [[("name", Value.str "a")], [("nm", Value.str "b")], []] 1 =
      some [("nm", Value.str "b")] := by
  refine ⟨?_, rfl⟩
  intro j hj v hfa
  have hfind : lookup columns rows docs row =
      docs.find? (fun dd => lookupFilter dd columns (rows.getD row [])) :=
    head?_filter_eq_find? _ docs
  rw [hfind] at hlk
  have hp : lookupFilter d columns (rows.getD row []) = true := by
    have h2 := List.find?_some hlk
    simpa using h2
  have hAll := (lookupFilter_iff d columns (rows.getD row []) hlen).mp hp
  have hchk := (aliasCheck_iff d ((rows.getD row []).getD j "")
    (columns.getD j [])).mp (hAll j hj)
  obtain ⟨a, ha, hav⟩ := firstAlias_mem d (columns.getD j []) v hfa
  have hrender : render v = (rows.getD row []).getD j "" := hchk a ha v hav
  have hdisp : displayCell d (columns.getD j []) = sanitizeCell (render v) := by
    simp only [displayCell, hfa]
  rw [hdisp, hrender]
  exact hfix ((rows.getD row []).getD j "")
    (getD_mem_of_lt (rows.getD row []) j "" (by rw [hlen]; exact hj))

/-- Witness for C8 amended, on the specification's scenario: applying
the round-trip at row 1 (the row of D2) and column 0 gives that D2's
projected display cell equals the row's cell "b". -/
theorem claim8_roundtrip_witness :
    displayCell [("nm", Value.str "b")]
        (([["name", "nm"]] : Columns).getD 0 []) =
      (([["a"], ["b"], ["(None)"]] : List (List String)).getD 1 []).getD 0 "" ∧
    ((([["a"], ["b"], ["(None)"]] : List (List String)).getD 1 []).getD 0 ""
      : String) = "b" := by
  refine ⟨?_, rfl⟩
  refine (claim8_roundtrip [["name", "nm"]] [["a"], ["b"], ["(None)"]]
    [[("name", Value.str "a")], [("nm", Value.str "b")], []] 1
    [("nm", Value.str "b")] rfl ?_ rfl).1 0 (by decide) (Value.str "b") rfl
  intro cell hcell
  have h2 : cell ∈ (["b"] : List String) := hcell
  rw [List.mem_singleton] at h2
  subst h2
  rfl

/-! ## C9: display sanitization -/

theorem data_mk (l : List Char) : (String.mk l).data = l := rfl

/-- C9: each display cell is the textual rendering of the raw value
with every non-printable rune removed; every rune of every emitted
display cell is printable, in particular no newline survives (the cell
is a single line); and the sanitization is a deterministic, idempotent
function of the rendered string. -/
theorem claim9_sanitization (columns : Columns) (doc : Document) :
    (∀ (g : List String) (v : Value), firstAlias doc g = some v →
      displayCell doc g =
        String.mk ((render v).data.filter unicode_IsPrint)) ∧
    (∀ cell ∈ (buildRow columns doc).1, ∀ c ∈ cell.data,
      unicode_IsPrint c = true) ∧
    (∀ cell ∈ (buildRow columns doc).1, ¬ '\n' ∈ cell.data) ∧
    (∀ s : String, sanitizeCell (sanitizeCell s) = sanitizeCell s) := by
  have hcellPrint : ∀ cell ∈ (buildRow columns doc).1, ∀ c ∈ cell.data,
      unicode_IsPrint c = true := by
    intro cell hcell c hc
    rw [buildRow_eq] at hcell
    simp only at hcell
    obtain ⟨g, _, rfl⟩ := List.mem_map.mp hcell
    cases hfa : firstAlias doc g with
    | some v =>
      simp only [displayCell, hfa, sanitizeCell_eq_filter, data_mk] at hc
      exact List.of_mem_filter hc
    | none =>
      simp only [displayCell, hfa] at hc
      have hnone : ∀ x ∈ ("(None)" : String).data, unicode_IsPrint x = true := by
        decide
      exact hnone c hc
  refine ⟨?_, hcellPrint, ?_, fun s => sanitizeCell_idem s⟩
  · intro g v hfa
    simp only [displayCell, hfa, sanitizeCell_eq_filter]
  · intro cell hcell hnl
    have := hcellPrint cell hcell '\n' hnl
    exact absurd this (by decide)

/-- Witness for C9: a value containing a newline projects to its
rendering with the newline removed — the single-line cell "ab". -/
theorem claim9_sanitization_witness :
    displayCell [("name", Value.str "a\nb")] ["name"] =
      String.mk ((render (Value.str "a\nb")).data.filter unicode_IsPrint) ∧
    displayCell [("name", Value.str "a\nb")] ["name"] = "ab" := by
  refine ⟨?_, rfl⟩
  exact (claim9_sanitization [["name"]] [("name", Value.str "a\nb")]).1
    ["name"] (Value.str "a\nb") rfl

end BingoViewer
